import Mathlib

/-!
Verification of the logMeBE backend (Quart + asyncpg + gspread).

This file gives a shallow embedding, in Lean 4, of the parts of the
repository that the specification talks about:

* `eangenerator.py` : the EAN-13 barcode generator (`genera_ean13`);
* `app.py`          : the timestamp display formatter
  (`format_event_time_ita`), the derived-view query `LAST_INBOUND_SQL`
  as consumed by `fetch_last_inbound_rows`, the spreadsheet writer
  `write_full_table_to_sheet` and the sync pipeline
  `refresh_sheet_from_db`, and the `notification_dispatcher` loop with
  its websocket registry.

Machine-level details are modelled explicitly: Python integers become
`Nat`/`Int`, timestamps become minutes-since-epoch integers plus a civil
calendar (proleptic Gregorian, the same arithmetic used by tzdata for
the Europe/Rome zone), randomness becomes an explicit list of drawn
digits, and the asyncio loops become folds over explicit event lists
with failure schedules.
-/

/- ==========================================================
   Part 1: eangenerator.py
   ========================================================== -/

/-- Rendering of a decimal digit as a character, 0 ↦ ASCII 48. -/
def digitCharOf (n : Nat) : Char := Char.ofNat (48 + n)

/-- Decimal rendering of a natural number, modelling the Python
expression str(d) for a non-negative int. -/
def natToStr (n : Nat) : String := Nat.repr n

/-- Concatenation of a list of strings, modelling the empty-separator
join used in eangenerator.py line 19. -/
def joinStrs : List String → String
  | [] => ""
  | s :: rest => s ++ joinStrs rest

/-- Elements of a list at indices 0, 2, 4, ..., modelling the Python
slice digits[0::2] (eangenerator.py lines 11 and 12; digits[1::2] is
`everyOther (digits.drop 1)`). -/
def everyOther : List Nat → List Nat
  | [] => []
  | [a] => [a]
  | a :: _ :: rest => a :: everyOther rest

/-- The checksum computation of `genera_ean13` (eangenerator.py lines
11-15): somma_odd over slice indices 0, 2, ..., 10, somma_even over
indices 1, 3, ..., 11, totale = somma_odd + somma_even * 3, and
checksum = (10 - totale % 10) % 10. -/
def genChecksum (digits : List Nat) : Nat :=
  let somma_odd := (everyOther digits).sum
  let somma_even := (everyOther (digits.drop 1)).sum
  let totale := somma_odd + somma_even * 3
  (10 - (totale % 10)) % 10

/-- Model of `genera_ean13` (eangenerator.py lines 3-19).  The twelve
random draws `random.randint(0, 9)` are made explicit as the input list
`digits`; the function computes the weighted checksum over the first
twelve digits, appends it, and renders the thirteen digits as a string. -/
def genera_ean13 (digits : List Nat) : String :=
  joinStrs ((digits ++ [genChecksum digits]).map natToStr)

/-- Digit value of a character, inverse of `digitCharOf` on digits. -/
def charToDigit (c : Char) : Nat := c.toNat - 48

/-- The EAN-13 weighted sum of a string of digits: digits in odd
positions (1st, 3rd, ..., counted from 1) weighted 1, digits in even
positions weighted 3. -/
def ean13WeightedSum (s : String) : Nat :=
  let ds := s.toList.map charToDigit
  (everyOther ds).sum + 3 * (everyOther (ds.drop 1)).sum

/- ==========================================================
   Part 2: app.py, format_event_time_ita (lines 484-500)
   ========================================================== -/

/-- Model of a Python `datetime.datetime` as stored in the log table:
a civil date and time of day together with an optional fixed UTC offset
in minutes (`none` models a naive datetime, `some 0` models UTC). -/
structure PyDateTime where
  year : Int
  month : Nat
  day : Nat
  hour : Nat
  minute : Nat
  tz : Option Int
deriving Repr, DecidableEq

/-- Gregorian leap-year rule. -/
def isLeap (y : Int) : Bool :=
  y.emod 4 = 0 && (y.emod 100 ≠ 0 || y.emod 400 = 0)

/-- Number of days in a month of the proleptic Gregorian calendar. -/
def daysInMonth (y : Int) (m : Nat) : Nat :=
  match m with
  | 2 => if isLeap y then 29 else 28
  | 4 => 30
  | 6 => 30
  | 9 => 30
  | 11 => 30
  | _ => 31

/-- Days since 1970-01-01 of the civil date y-m-d (proleptic Gregorian,
standard era-based conversion). -/
def daysFromCivil (y : Int) (m d : Nat) : Int :=
  let yAdj : Int := if m ≤ 2 then y - 1 else y
  let era : Int := yAdj.ediv 400
  let yoe : Int := yAdj - era * 400
  let mp : Nat := (m + 9) % 12
  let doy : Nat := (153 * mp + 2) / 5 + d - 1
  let doe : Int := yoe * 365 + yoe.ediv 4 - yoe.ediv 100 + (doy : Int)
  era * 146097 + doe - 719468

/-- Civil date (year, month, day) of an epoch day number; inverse of
`daysFromCivil`. -/
def civilFromDays (z : Int) : Int × Nat × Nat :=
  let z2 := z + 719468
  let era := z2.ediv 146097
  let doe := (z2 - era * 146097).toNat
  let yoe := (doe - doe / 1460 + doe / 36524 - doe / 146096) / 365
  let y : Int := (yoe : Int) + era * 400
  let doy := doe - (365 * yoe + yoe / 4 - yoe / 100)
  let mp := (5 * doy + 2) / 153
  let d := doy - (153 * mp + 2) / 5 + 1
  let m := if mp < 10 then mp + 3 else mp - 9
  (if m ≤ 2 then y + 1 else y, m, d)

/-- Weekday of an epoch day number, 0 = Sunday (1970-01-01 was a
Thursday). -/
def epochWeekday (z : Int) : Nat := ((z + 4).emod 7).toNat

/-- Day of month of the last Sunday of the given month. -/
def lastSundayOfMonth (y : Int) (m : Nat) : Nat :=
  let ld := daysInMonth y m
  ld - epochWeekday (daysFromCivil y m ld)

/-- UTC offset, in minutes, of the Europe/Rome timezone at a UTC
instant given in minutes since the epoch: +120 during EU daylight
saving time (from the last Sunday of March, 01:00 UTC, to the last
Sunday of October, 01:00 UTC), +60 otherwise.  This is the tzdata rule
applied by `ZoneInfo("Europe/Rome")` for all years since 1996. -/
def romeOffsetMin (t : Int) : Int :=
  let y := (civilFromDays (t.ediv 1440)).1
  let dstStart := daysFromCivil y 3 (lastSundayOfMonth y 3) * 1440 + 60
  let dstEnd := daysFromCivil y 10 (lastSundayOfMonth y 10) * 1440 + 60
  if dstStart ≤ t ∧ t < dstEnd then 120 else 60

/-- Zero-padded two-digit decimal rendering, as the strftime fields
%H, %M, %d and %m. -/
def pad2 (n : Nat) : String :=
  if n < 10 then "0" ++ natToStr n else natToStr n

/-- Four-digit year rendering, as the strftime field %Y on a Python
datetime (whose year always lies in 1..9999). -/
def pad4 (y : Int) : String :=
  let n := y.toNat
  if n < 10 then "000" ++ natToStr n
  else if n < 100 then "00" ++ natToStr n
  else if n < 1000 then "0" ++ natToStr n
  else natToStr n

/-- Model of `format_event_time_ita` (app.py lines 484-500): `None`
gives the empty string; a naive datetime is first tagged as UTC
(`event_time.replace(tzinfo=ZoneInfo("UTC"))`, modelled by
`Option.getD 0`); the instant is then converted to Europe/Rome
(`astimezone`) and rendered with the strftime pattern
"%H:%M %d/%m/%Y". -/
def format_event_time_ita : Option PyDateTime → String
  | none => ""
  | some dt =>
    let offs := dt.tz.getD 0
    let tUtc := daysFromCivil dt.year dt.month dt.day * 1440
      + ((dt.hour * 60 + dt.minute : Nat) : Int) - offs
    let tLoc := tUtc + romeOffsetMin tUtc
    let ymd := civilFromDays (tLoc.ediv 1440)
    let minOfDay := (tLoc.emod 1440).toNat
    pad2 (minOfDay / 60) ++ ":" ++ pad2 (minOfDay % 60) ++ " "
      ++ pad2 ymd.2.2 ++ "/" ++ pad2 ymd.2.1 ++ "/" ++ pad4 ymd.1

/- ==========================================================
   Part 3: app.py, LAST_INBOUND_SQL (lines 67-84) and
   fetch_last_inbound_rows (lines 88-109)
   ========================================================== -/

/-- The direction column of the log table (conftest.py line 63 checks
it is one of CHECKIN, CHECKOUT). -/
inductive Direction where
  | CHECKIN : Direction
  | CHECKOUT : Direction
deriving Repr, DecidableEq

/-- A row of the log table.  `event_time` is a timestamptz instant in
minutes since the epoch (asyncpg returns it as a UTC-aware datetime). -/
structure LogRow where
  id : Nat
  barcode : String
  event_time : Int
  direction : Direction
deriving Repr, DecidableEq

/-- A row of the users table. -/
structure UserRow where
  barcode : String
  nome : String
  cognome : String
deriving Repr, DecidableEq

/-- The database state the derived view reads: the users and log
tables. -/
structure DBState where
  users : List UserRow
  logs : List LogRow
deriving Repr

/-- A row produced by LAST_INBOUND_SQL: SELECT u.barcode, u.nome,
u.cognome, l.event_time. -/
structure QueryRow where
  barcode : String
  nome : String
  cognome : String
  event_time : Int
deriving Repr, DecidableEq

/-- The row of a list of log rows with the maximal event_time, if any.
Together with the filter in `latestFor` this models the subquery
SELECT DISTINCT ON (barcode) ... ORDER BY barcode, event_time DESC
of LAST_INBOUND_SQL: DISTINCT ON keeps, per barcode, the first row in
event_time-descending order, i.e. a row of maximal event_time.
PostgreSQL leaves the choice among equal timestamps unspecified; this
model deterministically keeps the last such row in table order. -/
def latestEvent : List LogRow → Option LogRow
  | [] => none
  | r :: rs =>
    match latestEvent rs with
    | none => some r
    | some m => if m.event_time < r.event_time then some r else some m

/-- The DISTINCT ON representative of one barcode: the row of maximal
event_time among the log rows carrying that barcode. -/
def latestFor (logs : List LogRow) (b : String) : Option LogRow :=
  latestEvent (logs.filter (fun r => r.barcode = b))

/-- Output of the inner DISTINCT ON (barcode) subquery of
LAST_INBOUND_SQL: one representative log row per distinct barcode. -/
def distinctOnBarcode (logs : List LogRow) : List LogRow :=
  ((logs.map (fun r => r.barcode)).dedup).filterMap (latestFor logs)

/-- Descending order on event_time, for the outer
ORDER BY l.event_time DESC of LAST_INBOUND_SQL. -/
def timeDescOrder (a b : QueryRow) : Prop := b.event_time ≤ a.event_time

instance : DecidableRel timeDescOrder := fun _ _ => Int.decLe _ _

/-- Model of LAST_INBOUND_SQL (app.py lines 67-84): take the DISTINCT
ON (barcode) representative of each barcode (inner subquery), JOIN
users u ON u.barcode = l.barcode, keep the rows WHERE l.direction =
CHECKIN, project to (u.barcode, u.nome, u.cognome, l.event_time), and
ORDER BY l.event_time DESC.  Sorting among equal timestamps is
unspecified in PostgreSQL; the model uses a stable insertion sort. -/
def lastInboundQuery (db : DBState) : List QueryRow :=
  let l := distinctOnBarcode db.logs
  let joined := l.flatMap (fun lr =>
    (db.users.filter (fun u => u.barcode = lr.barcode)).map (fun u => (lr, u)))
  let filtered := joined.filter (fun p => p.1.direction = Direction.CHECKIN)
  let projected := filtered.map (fun p =>
    QueryRow.mk p.2.barcode p.2.nome p.2.cognome p.1.event_time)
  List.insertionSort timeDescOrder projected

/-- Conversion of a timestamptz instant (minutes since epoch) to the
UTC-aware datetime that asyncpg hands to Python code. -/
def dtOfInstant (t : Int) : PyDateTime :=
  let ymd := civilFromDays (t.ediv 1440)
  let minOfDay := (t.emod 1440).toNat
  ⟨ymd.1, ymd.2.1, ymd.2.2, minOfDay / 60, minOfDay % 60, some 0⟩

/-- One sheet row as built in the loop of fetch_last_inbound_rows
(app.py lines 98-107): [barcode, nome, cognome, formatted event
time]. -/
def sheetRowOf (barcode nome cognome : String) (event_time : Option PyDateTime) :
    List String :=
  [barcode, nome, cognome, format_event_time_ita event_time]

/-- Model of `fetch_last_inbound_rows` (app.py lines 88-109): run
LAST_INBOUND_SQL and format each row for the sheet. -/
def fetch_last_inbound_rows (db : DBState) : List (List String) :=
  (lastInboundQuery db).map (fun r =>
    sheetRowOf r.barcode r.nome r.cognome (some (dtOfInstant r.event_time)))

/- ==========================================================
   Part 4: app.py, write_full_table_to_sheet (lines 113-127)
   and refresh_sheet_from_db (lines 131-144)
   ========================================================== -/

/-- One call to the external sheet gateway (gspread worksheet). -/
inductive SheetOp where
  | batchClear (ranges : List String) : SheetOp
  | update (anchor : String) (values : List (List String)) : SheetOp
deriving Repr, DecidableEq

/-- Model of `write_full_table_to_sheet` (app.py lines 113-127) as the
trace of gateway calls it performs: always `ws.batch_clear(["A2:D"])`
first; then, unless the row list is empty (`if not rows_for_sheet:
return`), one `ws.update("A2", rows_for_sheet)`. -/
def write_full_table_to_sheet (rows_for_sheet : List (List String)) : List SheetOp :=
  SheetOp.batchClear ["A2:D"] ::
    (if rows_for_sheet.isEmpty then [] else [SheetOp.update "A2" rows_for_sheet])

/-- State of the data region of the worksheet: the rows of columns A-D
from row 2 downward (every row written by the app is 4 cells wide, the
full width of the region). -/
abbrev SheetGrid : Type := List (List String)

/-- Effect of one gateway call on the data region: clearing the range
A2:D empties it; an update anchored at A2 overwrites the first rows and
leaves any remaining old rows below in place (gspread writes only the
cells covered by the given values). -/
def applySheetOp (grid : SheetGrid) : SheetOp → SheetGrid
  | SheetOp.batchClear ranges => if "A2:D" ∈ ranges then [] else grid
  | SheetOp.update anchor vals =>
    if anchor = "A2" then vals ++ (grid : List (List String)).drop vals.length else grid

/-- Effect of a trace of gateway calls, first to last. -/
def applySheetOps (grid : SheetGrid) (ops : List SheetOp) : SheetGrid :=
  ops.foldl applySheetOp grid

/-- Model of one run of `refresh_sheet_from_db` (app.py lines 131-144):
read the derived rows from the database state and apply the write
trace to the sheet. -/
def refresh_sheet_from_db (db : DBState) (grid : SheetGrid) : SheetGrid :=
  applySheetOps grid (write_full_table_to_sheet (fetch_last_inbound_rows db))

/- ==========================================================
   Part 5: app.py, notification_dispatcher (lines 172-197)
   and the websocket registry (lines 29-30, 465-482)
   ========================================================== -/

/-- A change event taken from the notification queue (app.py lines
154-159): channel name and payload of one NOTIFY. -/
structure ChangeEvent where
  channel : String
  payload : String
deriving Repr, DecidableEq

/-- The JSON message broadcast for one event. -/
structure WsMessage where
  type : String
  channel : String
  payload : String
deriving Repr, DecidableEq

/-- Message construction of app.py lines 178-182. -/
def mkMessage (e : ChangeEvent) : WsMessage :=
  ⟨"logs_changed", e.channel, e.payload⟩

/-- Websocket connections are identified by opaque handles, modelled
as naturals.  The registry `connected_websockets` is a Python set,
modelled as a duplicate-free list. -/
abbrev WsConn : Type := Nat

/-- Record of one broadcast: the message, the connections to which a
send was attempted (in order), and those whose send raised. -/
structure BroadcastRecord where
  message : WsMessage
  attempts : List WsConn
  failed : List WsConn
deriving Repr, DecidableEq

/-- One iteration of the dispatcher loop body for a dequeued event
(app.py lines 176-193): build the message, iterate over the snapshot
`list(connected_websockets)` attempting `ws.send_json` on every member
(`fails ws = true` models the send raising, caught by the
try/except which appends ws to `dead`), then discard every dead
connection from the registry.  Returns the broadcast record and the
registry after the discards. -/
def processEvent (regs : List WsConn) (fails : WsConn → Bool) (e : ChangeEvent) :
    BroadcastRecord × List WsConn :=
  let snapshot := regs
  let sends := snapshot.foldl
    (fun (acc : List WsConn × List WsConn) ws =>
      (acc.1 ++ [ws], if fails ws then acc.2 ++ [ws] else acc.2))
    ([], [])
  (⟨mkMessage e, sends.1, sends.2⟩, sends.2.foldl List.erase regs)

/-- Outcome of a finite prefix of the dispatcher loop: the broadcast
records in order, the outcomes of the sync runs spawned by
`asyncio.create_task(refresh_sheet_from_db())` (one per event,
fire-and-forget, so the dispatcher never inspects them), and the final
registry. -/
structure DispatchResult where
  broadcasts : List BroadcastRecord
  syncRuns : List (Except String Unit)
  registry : List WsConn
deriving Repr

/-- The dispatcher loop (app.py lines 172-197) consuming the events of
the queue in receipt order, starting at event index k.  `fails k ws`
says whether the send to ws raises during the broadcast of event k;
`syncOutcome k` is the outcome of the sync run spawned for event k
(failures inside that task are invisible to the dispatcher). -/
def runDispatcherFrom (fails : Nat → WsConn → Bool)
    (syncOutcome : Nat → Except String Unit) :
    Nat → List ChangeEvent → List WsConn → DispatchResult
  | _, [], regs => ⟨[], [], regs⟩
  | k, e :: es, regs =>
    let step := processEvent regs (fails k) e
    let rest := runDispatcherFrom fails syncOutcome (k + 1) es step.2
    ⟨step.1 :: rest.broadcasts, syncOutcome k :: rest.syncRuns, rest.registry⟩

/-- The dispatcher run over a whole finite queue of events. -/
def runDispatcher (events : List ChangeEvent) (regs : List WsConn)
    (fails : Nat → WsConn → Bool) (syncOutcome : Nat → Except String Unit) :
    DispatchResult :=
  runDispatcherFrom fails syncOutcome 0 events regs

/-- Mutation of the registry performed by a connection-handling task
(app.py lines 465-482): `connected_websockets.add(ws)` on connect,
`connected_websockets.discard(ws)` on disconnect. -/
inductive RegOp where
  | register (c : WsConn) : RegOp
  | unregister (c : WsConn) : RegOp

/-- Set semantics of one registry mutation: add is a no-op on a
present member, discard is a no-op on an absent one (both are total:
neither can raise). -/
def applyRegOp (regs : List WsConn) : RegOp → List WsConn
  | RegOp.register c => if c ∈ regs then regs else regs ++ [c]
  | RegOp.unregister c => regs.erase c

/-- Accumulator of the broadcast-with-interleaving model. -/
structure MutFoldState where
  idx : Nat
  attempts : List WsConn
  dead : List WsConn
  live : List WsConn

/-- Broadcast of app.py lines 184-193 with concurrent registry
mutations made explicit: the loop iterates over the point-in-time copy
`list(connected_websockets)` taken when the broadcast starts; after
the send attempt to the i-th snapshot member, the cooperative
scheduler may run other tasks, modelled by applying the mutations
`muts i` to the live registry; the dead members collected by the loop
are discarded from the (mutated) live registry at the end. -/
def broadcastWithMut (regs : List WsConn) (fails : WsConn → Bool)
    (muts : Nat → List RegOp) (msg : WsMessage) : BroadcastRecord × List WsConn :=
  let snapshot := regs
  let fin := snapshot.foldl
    (fun (acc : MutFoldState) ws =>
      { idx := acc.idx + 1
        attempts := acc.attempts ++ [ws]
        dead := if fails ws then acc.dead ++ [ws] else acc.dead
        live := (muts acc.idx).foldl applyRegOp acc.live })
    ⟨0, [], [], regs⟩
  (⟨msg, fin.attempts, fin.dead⟩, fin.dead.foldl List.erase fin.live)

/- ==========================================================
   Part 6: helper lemmas
   ========================================================== -/

theorem natToStr_digit {d : Nat} (hd : d ≤ 9) :
    natToStr d = String.mk [digitCharOf d] := by
  interval_cases d <;> rfl

theorem charToDigit_digitCharOf {d : Nat} (hd : d ≤ 9) :
    charToDigit (digitCharOf d) = d := by
  interval_cases d <;> rfl

theorem isDigit_digitCharOf {d : Nat} (hd : d ≤ 9) :
    (digitCharOf d).isDigit = true := by
  interval_cases d <;> decide

theorem toList_append_str (a b : String) : (a ++ b).toList = a.toList ++ b.toList := rfl

theorem toList_joinDigits (l : List Nat) (h : ∀ d ∈ l, d ≤ 9) :
    (joinStrs (l.map natToStr)).toList = l.map digitCharOf := by
  induction l with
  | nil => rfl
  | cons d l ih =>
    have hd : d ≤ 9 := h d (List.mem_cons_self d l)
    have hrest : ∀ x ∈ l, x ≤ 9 := fun x hx => h x (List.mem_cons_of_mem d hx)
    simp only [List.map_cons, joinStrs, toList_append_str, ih hrest,
      natToStr_digit hd]
    rfl

theorem everyOther_append_even {c : Nat} :
    ∀ l : List Nat, l.length % 2 = 0 → everyOther (l ++ [c]) = everyOther l ++ [c]
  | [], _ => rfl
  | [_], h => by simp at h
  | a :: b :: rest, h => by
    have hr : rest.length % 2 = 0 := by simp [List.length_cons] at h; omega
    simp only [List.cons_append, everyOther, List.append_eq, everyOther_append_even rest hr]

theorem everyOther_append_odd {c : Nat} :
    ∀ l : List Nat, l.length % 2 = 1 → everyOther (l ++ [c]) = everyOther l
  | [], h => by simp at h
  | [_], _ => rfl
  | a :: b :: rest, h => by
    have hr : rest.length % 2 = 1 := by simp [List.length_cons] at h; omega
    simp only [List.cons_append, everyOther, List.append_eq, everyOther_append_odd rest hr]

theorem mem_foldl_erase {x : WsConn} :
    ∀ (ds l : List WsConn), x ∈ ds.foldl List.erase l → x ∈ l
  | [], _, h => h
  | d :: ds, l, h => List.mem_of_mem_erase (mem_foldl_erase ds (l.erase d) h)

theorem not_mem_foldl_erase {x : WsConn} :
    ∀ (ds l : List WsConn), l.Nodup → x ∈ ds → x ∉ ds.foldl List.erase l
  | [], _, _, hx => by simp at hx
  | d :: ds, l, hnd, hx => by
    rcases List.mem_cons.mp hx with he | hm
    · subst he
      intro hmem
      exact hnd.not_mem_erase (mem_foldl_erase ds (l.erase x) hmem)
    · exact not_mem_foldl_erase ds (l.erase d) (hnd.erase d) hm

theorem sendLoop_spec (fails : WsConn → Bool) :
    ∀ (l : List WsConn) (a d : List WsConn),
      l.foldl (fun (acc : List WsConn × List WsConn) ws =>
        (acc.1 ++ [ws], if fails ws then acc.2 ++ [ws] else acc.2)) (a, d) =
      (a ++ l, d ++ l.filter fails)
  | [], a, d => by simp
  | ws :: l, a, d => by
    simp only [List.foldl_cons, List.filter_cons]
    cases h : fails ws <;>
      simp [h, sendLoop_spec fails l]

theorem processEvent_spec (regs : List WsConn) (fails : WsConn → Bool)
    (e : ChangeEvent) :
    processEvent regs fails e =
      (⟨mkMessage e, regs, regs.filter fails⟩,
       (regs.filter fails).foldl List.erase regs) := by
  simp [processEvent, sendLoop_spec fails regs [] []]

theorem processEvent_removes (regs : List WsConn) (fails : WsConn → Bool)
    (e : ChangeEvent) {ws : WsConn} (hnd : regs.Nodup) (hmem : ws ∈ regs)
    (hf : fails ws = true) : ws ∉ (processEvent regs fails e).2 := by
  rw [processEvent_spec]
  exact not_mem_foldl_erase _ regs hnd (List.mem_filter.mpr ⟨hmem, hf⟩)

theorem processEvent_preserves_absent (regs : List WsConn)
    (fails : WsConn → Bool) (e : ChangeEvent) {ws : WsConn}
    (h : ws ∉ regs) : ws ∉ (processEvent regs fails e).2 := by
  rw [processEvent_spec]
  exact fun hmem => h (mem_foldl_erase _ regs hmem)

theorem runDispatcherFrom_messages (fails : Nat → WsConn → Bool)
    (sync : Nat → Except String Unit) :
    ∀ (es : List ChangeEvent) (k : Nat) (regs : List WsConn),
      (runDispatcherFrom fails sync k es regs).broadcasts.map
        (fun r => r.message) = es.map mkMessage
  | [], _, _ => rfl
  | e :: es, k, regs => by
    simp only [runDispatcherFrom, List.map_cons,
      runDispatcherFrom_messages fails sync es (k + 1)]
    rw [processEvent_spec]

theorem runDispatcherFrom_syncRuns (fails : Nat → WsConn → Bool)
    (sync : Nat → Except String Unit) :
    ∀ (es : List ChangeEvent) (k : Nat) (regs : List WsConn),
      (runDispatcherFrom fails sync k es regs).syncRuns =
        (List.range' k es.length).map sync
  | [], _, _ => rfl
  | e :: es, k, regs => by
    simp only [runDispatcherFrom, List.length_cons, List.range'_succ,
      List.map_cons, runDispatcherFrom_syncRuns fails sync es (k + 1)]

theorem runDispatcherFrom_sync_independent (fails : Nat → WsConn → Bool)
    (s1 s2 : Nat → Except String Unit) :
    ∀ (es : List ChangeEvent) (k : Nat) (regs : List WsConn),
      (runDispatcherFrom fails s1 k es regs).broadcasts =
        (runDispatcherFrom fails s2 k es regs).broadcasts ∧
      (runDispatcherFrom fails s1 k es regs).registry =
        (runDispatcherFrom fails s2 k es regs).registry
  | [], _, _ => ⟨rfl, rfl⟩
  | e :: es, k, regs => by
    have ih := runDispatcherFrom_sync_independent fails s1 s2 es (k + 1)
      (processEvent regs (fails k) e).2
    simp only [runDispatcherFrom, ih.1, ih.2, and_self]

theorem runDispatcherFrom_absent (fails : Nat → WsConn → Bool)
    (sync : Nat → Except String Unit) {ws : WsConn} :
    ∀ (es : List ChangeEvent) (k : Nat) (regs : List WsConn), ws ∉ regs →
      (∀ rec ∈ (runDispatcherFrom fails sync k es regs).broadcasts,
        ws ∉ rec.attempts) ∧
      ws ∉ (runDispatcherFrom fails sync k es regs).registry
  | [], _, regs, h => ⟨by simp [runDispatcherFrom], h⟩
  | e :: es, k, regs, h => by
    have hstep : ws ∉ (processEvent regs (fails k) e).2 :=
      processEvent_preserves_absent regs (fails k) e h
    have ih := runDispatcherFrom_absent fails sync es (k + 1)
      (processEvent regs (fails k) e).2 hstep
    refine ⟨fun rec hrec => ?_, ih.2⟩
    simp only [runDispatcherFrom, List.mem_cons] at hrec
    rcases hrec with he | hm
    · subst he
      rw [processEvent_spec]
      exact h
    · exact ih.1 rec hm

theorem mutLoop_attempts :
    ∀ (l : List WsConn) (fails : WsConn → Bool) (muts : Nat → List RegOp)
      (s : MutFoldState),
      (l.foldl (fun (acc : MutFoldState) ws =>
        { idx := acc.idx + 1
          attempts := acc.attempts ++ [ws]
          dead := if fails ws then acc.dead ++ [ws] else acc.dead
          live := (muts acc.idx).foldl applyRegOp acc.live }) s).attempts =
      s.attempts ++ l
  | [], _, _, s => by simp
  | ws :: l, fails, muts, s => by
    simp only [List.foldl_cons, mutLoop_attempts l fails muts]
    simp

theorem latestEvent_mem : ∀ {l : List LogRow} {e : LogRow},
    latestEvent l = some e → e ∈ l
  | r :: rs, e, h => by
    simp only [latestEvent] at h
    cases hrec : latestEvent rs with
    | none => rw [hrec] at h; cases h; exact List.mem_cons_self r rs
    | some m =>
      rw [hrec] at h
      by_cases hlt : m.event_time < r.event_time
      · simp only [hlt, if_pos] at h
        cases h; exact List.mem_cons_self r rs
      · simp only [hlt, if_neg, not_false_iff] at h
        cases h; exact List.mem_cons_of_mem r (latestEvent_mem hrec)

theorem latestFor_mem {logs : List LogRow} {b : String} {e : LogRow}
    (h : latestFor logs b = some e) : e ∈ logs ∧ e.barcode = b := by
  have hm : e ∈ logs.filter (fun r => r.barcode = b) := latestEvent_mem h
  have := List.mem_filter.mp hm
  exact ⟨this.1, by simpa using this.2⟩

theorem filterMap_latestFor_filter_nil (logs : List LogRow) (b : String) :
    ∀ bs : List String, b ∉ bs →
      (bs.filterMap (latestFor logs)).filter (fun r => r.barcode = b) = []
  | [], _ => rfl
  | b2 :: bs, hnm => by
    have hne : b ∉ bs := fun h => hnm (List.mem_cons_of_mem b2 h)
    have hb2 : b2 ≠ b := fun h => hnm (h ▸ List.mem_cons_self b2 bs)
    cases h2 : latestFor logs b2 with
    | none =>
      simpa [List.filterMap_cons, h2] using
        filterMap_latestFor_filter_nil logs b bs hne
    | some e2 =>
      have hbc : e2.barcode = b2 := (latestFor_mem h2).2
      simpa [List.filterMap_cons, h2, List.filter_cons, hbc, hb2] using
        filterMap_latestFor_filter_nil logs b bs hne

theorem filterMap_latestFor_filter_singleton (logs : List LogRow) (b : String)
    (e : LogRow) (he : latestFor logs b = some e) :
    ∀ bs : List String, bs.Nodup → b ∈ bs →
      (bs.filterMap (latestFor logs)).filter (fun r => r.barcode = b) = [e]
  | b2 :: bs, hnd, hmem => by
    have hnd2 := List.nodup_cons.mp hnd
    by_cases hb : b2 = b
    · subst hb
      have hbc : e.barcode = b2 := (latestFor_mem he).2
      simpa [List.filterMap_cons, he, List.filter_cons, hbc] using
        filterMap_latestFor_filter_nil logs b2 bs hnd2.1
    · have hm : b ∈ bs := by
        rcases List.mem_cons.mp hmem with h | h
        · exact absurd h.symm hb
        · exact h
      cases h2 : latestFor logs b2 with
      | none =>
        simpa [List.filterMap_cons, h2] using
          filterMap_latestFor_filter_singleton logs b e he bs hnd2.2 hm
      | some e2 =>
        have hbc : e2.barcode = b2 := (latestFor_mem h2).2
        simpa [List.filterMap_cons, h2, List.filter_cons, hbc, hb] using
          filterMap_latestFor_filter_singleton logs b e he bs hnd2.2 hm

theorem distinctOn_filter_singleton {logs : List LogRow} {b : String}
    {e : LogRow} (hlatest : latestFor logs b = some e) :
    (distinctOnBarcode logs).filter (fun r => r.barcode = b) = [e] := by
  have hm := latestFor_mem hlatest
  have hbm : b ∈ (logs.map (fun r => r.barcode)).dedup :=
    List.mem_dedup.mpr (List.mem_map.mpr ⟨e, hm.1, hm.2⟩)
  exact filterMap_latestFor_filter_singleton logs b e hlatest _
    (List.nodup_dedup _) hbm

theorem users_filter_singleton :
    ∀ (users : List UserRow) {b : String} {u : UserRow},
      (users.map (fun x => x.barcode)).Nodup → u ∈ users → u.barcode = b →
      users.filter (fun x => x.barcode = b) = [u]
  | v :: rest, b, u, hnd, hmem, hub => by
    have hnd2 : v.barcode ∉ rest.map (fun x => x.barcode) ∧
        (rest.map (fun x => x.barcode)).Nodup := by
      rw [List.map_cons] at hnd
      exact List.nodup_cons.mp hnd
    rcases List.mem_cons.mp hmem with he | hm
    · subst he
      have hrest : rest.filter (fun x => x.barcode = b) = [] := by
        refine List.filter_eq_nil_iff.mpr fun x hx => ?_
        simp only [decide_eq_true_eq]
        intro hxb
        exact hnd2.1 (List.mem_map.mpr ⟨x, hx, by simp [hxb, hub]⟩)
      simp [List.filter_cons, hub, hrest]
    · have hvb : ¬(v.barcode = b) := by
        intro hvb
        exact hnd2.1 (List.mem_map.mpr ⟨u, hm, by simp [hub, hvb]⟩)
      simpa [List.filter_cons, hvb] using
        users_filter_singleton rest hnd2.2 hm hub

theorem join_project_filter (users : List UserRow) (b : String) (u : UserRow)
    (husers : users.filter (fun x => x.barcode = b) = [u]) :
    ∀ L : List LogRow,
      ((((L.flatMap (fun lr =>
          (users.filter (fun x => x.barcode = lr.barcode)).map
            (fun x => (lr, x)))).filter
          (fun p => p.1.direction = Direction.CHECKIN)).map
          (fun p => QueryRow.mk p.2.barcode p.2.nome p.2.cognome
            p.1.event_time)).filter (fun r => r.barcode = b)) =
      (L.filter (fun lr => decide (lr.direction = Direction.CHECKIN) &&
          decide (lr.barcode = b))).map
        (fun lr => QueryRow.mk u.barcode u.nome u.cognome lr.event_time)
  | [] => rfl
  | lr :: L => by
    have hub : u.barcode = b := by
      have hm : u ∈ users.filter (fun x => x.barcode = b) := by
        rw [husers]; exact List.mem_singleton.mpr rfl
      simpa using (List.mem_filter.mp hm).2
    have ih := join_project_filter users b u husers L
    by_cases hb : lr.barcode = b
    · by_cases hdir : lr.direction = Direction.CHECKIN
      · simp only [List.flatMap_cons, List.filter_append, List.map_append,
          List.filter_cons, hb, husers, ih]
        simp [List.filter_cons, hdir, hub]
      · simp only [List.flatMap_cons, List.filter_append, List.map_append,
          List.filter_cons, hb, husers, ih]
        simp [List.filter_cons, hdir]
    · have hhead : ((((users.filter (fun x => x.barcode = lr.barcode)).map
          (fun x => (lr, x))).filter
          (fun p => p.1.direction = Direction.CHECKIN)).map
          (fun p => QueryRow.mk p.2.barcode p.2.nome p.2.cognome
            p.1.event_time)).filter (fun r => r.barcode = b) = [] := by
        refine List.filter_eq_nil_iff.mpr fun r hr => ?_
        simp only [List.mem_map, List.mem_filter] at hr
        obtain ⟨p, ⟨hp, _⟩, hproj⟩ := hr
        obtain ⟨x, ⟨_, hxb⟩, hpx⟩ := hp
        subst hpx
        subst hproj
        simp only [decide_eq_true_eq] at hxb ⊢
        intro hrb
        exact hb (hxb ▸ hrb)
      simp only [List.flatMap_cons, List.filter_append, List.map_append,
        List.filter_cons, hhead, ih, hb]
      simp

/-- Claim C1 counterexample: in a database where barcode 1234567890123
has a CHECKIN at time 100 followed by a CHECKOUT at time 200, the
derived view returns no row at all for that barcode, even though the
barcode has a CHECKIN event; the claim as stated (one row carrying the
most recent CHECKIN, unaffected by a later CHECKOUT) is therefore
false on the code. -/
theorem lastInbound_checkout_shadows_cex :
    (∃ r ∈ (DBState.mk [UserRow.mk "1234567890123" "Mario" "Rossi"]
        [LogRow.mk 1 "1234567890123" 100 Direction.CHECKIN,
         LogRow.mk 2 "1234567890123" 200 Direction.CHECKOUT]).logs,
      r.direction = Direction.CHECKIN ∧ r.barcode = "1234567890123") ∧
    lastInboundQuery (DBState.mk [UserRow.mk "1234567890123" "Mario" "Rossi"]
        [LogRow.mk 1 "1234567890123" 100 Direction.CHECKIN,
         LogRow.mk 2 "1234567890123" 200 Direction.CHECKOUT]) = [] := by
  constructor
  · exact ⟨LogRow.mk 1 "1234567890123" 100 Direction.CHECKIN,
      by decide, by decide⟩
  · decide

/-- Claim C1 (amended): for every barcode b whose most recent log
event e (the DISTINCT ON representative) is a CHECKIN, and whose user
exists (barcodes being unique in users, as the primary key
guarantees), the derived-view query returns exactly one row for b,
carrying the timestamp of e joined with the first and last name of the
user; if instead the most recent event for b is a CHECKOUT, the query
returns no row for b (a CHECKOUT later than the latest CHECKIN removes
the row of the barcode rather than leaving it unchanged). -/
theorem lastInbound_latest_event_rows (db : DBState) (b : String)
    (e : LogRow) (u : UserRow)
    (hnodup : (db.users.map (fun x => x.barcode)).Nodup)
    (hmem : u ∈ db.users) (hub : u.barcode = b)
    (hlatest : latestFor db.logs b = some e) :
    (e.direction = Direction.CHECKIN →
      (lastInboundQuery db).filter (fun r => r.barcode = b) =
        [QueryRow.mk b u.nome u.cognome e.event_time]) ∧
    (e.direction = Direction.CHECKOUT →
      (lastInboundQuery db).filter (fun r => r.barcode = b) = []) := by
  have husers := users_filter_singleton db.users hnodup hmem hub
  have hpicked := distinctOn_filter_singleton hlatest
  have hE := join_project_filter db.users b u husers (distinctOnBarcode db.logs)
  have hcomp : (distinctOnBarcode db.logs).filter
      (fun lr => decide (lr.direction = Direction.CHECKIN) &&
        decide (lr.barcode = b)) =
      [e].filter (fun lr => lr.direction = Direction.CHECKIN) := by
    rw [← List.filter_filter, hpicked]
  rw [hcomp] at hE
  have h2 : List.Perm (lastInboundQuery db)
      ((((distinctOnBarcode db.logs).flatMap (fun lr =>
        (db.users.filter (fun x => x.barcode = lr.barcode)).map
          (fun x => (lr, x)))).filter
        (fun p => p.1.direction = Direction.CHECKIN)).map
        (fun p => QueryRow.mk p.2.barcode p.2.nome p.2.cognome
          p.1.event_time)) :=
    List.perm_insertionSort timeDescOrder _
  have h3 := h2.filter (fun r => r.barcode = b)
  rw [hE] at h3
  constructor
  · intro hdir
    have h4 : (([e].filter (fun lr => lr.direction = Direction.CHECKIN)).map
        (fun lr => QueryRow.mk u.barcode u.nome u.cognome lr.event_time)) =
        [QueryRow.mk b u.nome u.cognome e.event_time] := by
      simp [List.filter_cons, hdir, hub]
    rw [h4] at h3
    exact List.perm_singleton.mp h3
  · intro hdir
    have h4 : (([e].filter (fun lr => lr.direction = Direction.CHECKIN)).map
        (fun lr => QueryRow.mk u.barcode u.nome u.cognome lr.event_time)) =
        [] := by
      simp [List.filter_cons, hdir]
    rw [h4] at h3
    exact List.perm_nil.mp h3

/-- Claim C1 witness for the amended theorem: a database with one user
and a single CHECKIN produces exactly that derived row. -/
theorem lastInbound_latest_event_rows_witness :
    (lastInboundQuery (DBState.mk [UserRow.mk "1111111111111" "Alice" "Bianchi"]
        [LogRow.mk 7 "1111111111111" 50 Direction.CHECKIN])).filter
      (fun r => r.barcode = "1111111111111") =
      [QueryRow.mk "1111111111111" "Alice" "Bianchi" 50] :=
  (lastInbound_latest_event_rows
    (DBState.mk [UserRow.mk "1111111111111" "Alice" "Bianchi"]
      [LogRow.mk 7 "1111111111111" 50 Direction.CHECKIN])
    "1111111111111" (LogRow.mk 7 "1111111111111" 50 Direction.CHECKIN)
    (UserRow.mk "1111111111111" "Alice" "Bianchi")
    (by decide) (by decide) (by decide) (by decide)).1 (by decide)

/-- Claim C2: during a single broadcast a failing send does not stop
the loop (delivery is attempted to the whole snapshot); every
connection whose send failed is removed from the registry by the end of
that broadcast and is absent from the attempts of every subsequent
broadcast; and concretely, with registry [1, 2, 3] where only
connection 2 fails, the registry afterwards is exactly [1, 3]. -/
theorem broadcast_drops_failed_connection (regs : List WsConn) (ws : WsConn)
    (e : ChangeEvent) (es : List ChangeEvent) (fails : Nat → WsConn → Bool)
    (sync : Nat → Except String Unit) (hnd : regs.Nodup) (hmem : ws ∈ regs)
    (hf : fails 0 ws = true) :
    (processEvent regs (fails 0) e).1.attempts = regs ∧
    ws ∉ (processEvent regs (fails 0) e).2 ∧
    (∀ rec ∈ (runDispatcherFrom fails sync 1 es
        (processEvent regs (fails 0) e).2).broadcasts, ws ∉ rec.attempts) ∧
    (processEvent [1, 2, 3] (fun c => c == 2)
      (ChangeEvent.mk "log_changes" "p")).2 = [1, 3] := by
  have hrm := processEvent_removes regs (fails 0) e hnd hmem hf
  refine ⟨?_, hrm,
    (runDispatcherFrom_absent fails sync es 1 _ hrm).1, by decide⟩
  rw [processEvent_spec]

/-- Claim C2 witness: the theorem applied at the concrete three-member
registry with the second connection failing. -/
theorem broadcast_drops_failed_connection_witness :
    (processEvent [1, 2, 3] (fun c => c == 2)
        (ChangeEvent.mk "log_changes" "p")).1.attempts = [1, 2, 3] ∧
    2 ∉ (processEvent [1, 2, 3] (fun c => c == 2)
        (ChangeEvent.mk "log_changes" "p")).2 ∧
    (∀ rec ∈ (runDispatcherFrom (fun _ c => c == 2) (fun _ => Except.ok ()) 1
        [] (processEvent [1, 2, 3] (fun c => c == 2)
          (ChangeEvent.mk "log_changes" "p")).2).broadcasts,
      (2 : WsConn) ∉ rec.attempts) ∧
    (processEvent [1, 2, 3] (fun c => c == 2)
      (ChangeEvent.mk "log_changes" "p")).2 = [1, 3] :=
  broadcast_drops_failed_connection [1, 2, 3] 2
    (ChangeEvent.mk "log_changes" "p") [] (fun _ c => c == 2)
    (fun _ => Except.ok ()) (by decide) (by decide) (by decide)

/-- Claim C3: for every finite sequence of queued change events the
dispatcher performs exactly one broadcast per event, in receipt order,
and the message broadcast for event (channel, payload) is exactly
(type = logs_changed, channel, payload). -/
theorem dispatcher_messages_in_order (events : List ChangeEvent)
    (regs : List WsConn) (fails : Nat → WsConn → Bool)
    (sync : Nat → Except String Unit) :
    (runDispatcher events regs fails sync).broadcasts.map
      (fun r => r.message) = events.map mkMessage ∧
    (runDispatcher events regs fails sync).broadcasts.length =
      events.length := by
  have h := runDispatcherFrom_messages fails sync events 0 regs
  exact ⟨h, by simpa using congrArg List.length h⟩

/-- Claim C4: format_event_time_ita renders the naive timestamp
2024-01-15 10:00:00 as 11:00 15/01/2024 (naive treated as UTC, then
converted to Europe/Rome, where the offset in January is +1h), and in
general a naive timestamp is rendered exactly as the same timestamp
explicitly tagged UTC. -/
theorem format_event_time_ita_rome :
    format_event_time_ita (some (PyDateTime.mk 2024 1 15 10 0 none)) =
      "11:00 15/01/2024" ∧
    ∀ (y : Int) (mo d hh mi : Nat),
      format_event_time_ita (some (PyDateTime.mk y mo d hh mi none)) =
        format_event_time_ita (some (PyDateTime.mk y mo d hh mi (some 0))) :=
  ⟨by decide, fun _ _ _ _ _ => rfl⟩

/-- Claim C5: write_full_table_to_sheet always clears A2:D first; with
an empty row list it performs no update call at all; with a non-empty
row list it clears and then writes the rows anchored at A2. -/
theorem write_full_table_clear_then_write (rows : List (List String)) :
    (rows = [] → write_full_table_to_sheet rows =
      [SheetOp.batchClear ["A2:D"]]) ∧
    (rows = [] → ∀ a vs, SheetOp.update a vs ∉ write_full_table_to_sheet rows) ∧
    (rows ≠ [] → write_full_table_to_sheet rows =
      [SheetOp.batchClear ["A2:D"], SheetOp.update "A2" rows]) := by
  refine ⟨fun h => ?_, fun h a vs => ?_, fun h => ?_⟩
  · subst h; rfl
  · subst h; simp [write_full_table_to_sheet]
  · simp [write_full_table_to_sheet, h]

/-- Claim C5 witness: the theorem applied at the empty row list and at
a one-row list. -/
theorem write_full_table_clear_then_write_witness :
    write_full_table_to_sheet [] = [SheetOp.batchClear ["A2:D"]] ∧
    write_full_table_to_sheet [["a", "b", "c", "d"]] =
      [SheetOp.batchClear ["A2:D"],
       SheetOp.update "A2" [["a", "b", "c", "d"]]] :=
  ⟨(write_full_table_clear_then_write []).1 rfl,
   (write_full_table_clear_then_write [["a", "b", "c", "d"]]).2.2 (by simp)⟩

theorem refresh_sheet_from_db_const (db : DBState) (g : SheetGrid) :
    refresh_sheet_from_db db g = fetch_last_inbound_rows db := by
  by_cases h : (fetch_last_inbound_rows db).isEmpty = true
  · have hnil : fetch_last_inbound_rows db = [] := by simpa using h
    simp [refresh_sheet_from_db, write_full_table_to_sheet, applySheetOps,
      applySheetOp, h, hnil]
  · simp [refresh_sheet_from_db, write_full_table_to_sheet, applySheetOps,
      applySheetOp, h]

/-- Claim C6: one run of the sync pipeline is a deterministic function
of the database state alone — its result does not depend on the sheet
contents it started from — so two consecutive runs with no intervening
data change produce identical sheet contents (idempotent full
overwrite). -/
theorem refresh_sheet_idempotent (db : DBState) (g g2 : SheetGrid) :
    refresh_sheet_from_db db (refresh_sheet_from_db db g) =
      refresh_sheet_from_db db g ∧
    refresh_sheet_from_db db g = refresh_sheet_from_db db g2 := by
  simp [refresh_sheet_from_db_const]

/-- Claim C7: the broadcast loop iterates over the point-in-time copy
of the subscriber set taken when the broadcast starts, so whatever
registrations and unregistrations are interleaved with the sends (all
registry operations being total, none can raise), delivery is
attempted exactly to the members of that snapshot. -/
theorem broadcast_iterates_snapshot (regs : List WsConn)
    (fails : WsConn → Bool) (muts : Nat → List RegOp) (msg : WsMessage) :
    (broadcastWithMut regs fails muts msg).1.attempts = regs := by
  simp [broadcastWithMut, mutLoop_attempts regs fails muts]

/-- Claim C8: the outcomes of the fire-and-forget sync runs are
invisible to the dispatcher: the broadcasts performed and the registry
evolution are identical under any two sync failure schedules, every
queued event is consumed, and exactly one sync run is spawned per
event (no retry is ever scheduled). -/
theorem sync_failures_confined (events : List ChangeEvent)
    (regs : List WsConn) (fails : Nat → WsConn → Bool)
    (s1 s2 : Nat → Except String Unit) :
    (runDispatcher events regs fails s1).broadcasts =
      (runDispatcher events regs fails s2).broadcasts ∧
    (runDispatcher events regs fails s1).registry =
      (runDispatcher events regs fails s2).registry ∧
    (runDispatcher events regs fails s1).syncRuns =
      (List.range events.length).map s1 := by
  refine ⟨(runDispatcherFrom_sync_independent fails s1 s2 events 0 regs).1,
    (runDispatcherFrom_sync_independent fails s1 s2 events 0 regs).2, ?_⟩
  rw [runDispatcher, runDispatcherFrom_syncRuns, List.range_eq_range']

/-- Claim C9: format_event_time_ita maps None to the empty string, so
a derived row whose event_time is NULL is written to the sheet with an
empty display field. -/
theorem format_event_time_ita_none :
    format_event_time_ita none = "" ∧
    ∀ barcode nome cognome : String,
      sheetRowOf barcode nome cognome none = [barcode, nome, cognome, ""] :=
  ⟨rfl, fun _ _ _ => rfl⟩

/-- Claim C10: for any twelve drawn digits, genera_ean13 returns a
string of exactly 13 decimal digits whose EAN-13 weighted sum (odd
positions weighted 1, even positions weighted 3) is divisible by
10. -/
theorem genera_ean13_valid (digits : List Nat) (hlen : digits.length = 12)
    (hdig : ∀ d ∈ digits, d ≤ 9) :
    (genera_ean13 digits).length = 13 ∧
    (∀ c ∈ (genera_ean13 digits).toList, c.isDigit = true) ∧
    ean13WeightedSum (genera_ean13 digits) % 10 = 0 := by
  have hck9 : genChecksum digits ≤ 9 := by
    simp only [genChecksum]
    omega
  have hfull : ∀ d ∈ digits ++ [genChecksum digits], d ≤ 9 := by
    intro d hd
    rcases List.mem_append.mp hd with h | h
    · exact hdig d h
    · rw [List.mem_singleton.mp h]; exact hck9
  have htl : (genera_ean13 digits).toList =
      (digits ++ [genChecksum digits]).map digitCharOf :=
    toList_joinDigits _ hfull
  refine ⟨?_, ?_, ?_⟩
  · have hl : (genera_ean13 digits).length =
        (genera_ean13 digits).toList.length := rfl
    rw [hl, htl, List.length_map, List.length_append, hlen]
    rfl
  · intro c hc
    rw [htl] at hc
    obtain ⟨d, hd, rfl⟩ := List.mem_map.mp hc
    exact isDigit_digitCharOf (hfull d hd)
  · have hds : (genera_ean13 digits).toList.map charToDigit =
        digits ++ [genChecksum digits] := by
      rw [htl, List.map_map]
      have hpt : ∀ d ∈ digits ++ [genChecksum digits],
          (charToDigit ∘ digitCharOf) d = id d := by
        intro d hd
        simpa using charToDigit_digitCharOf (hfull d hd)
      rw [List.map_congr_left hpt, List.map_id]
    have hsplit1 : everyOther (digits ++ [genChecksum digits]) =
        everyOther digits ++ [genChecksum digits] :=
      everyOther_append_even digits (by omega)
    have hdrop : (digits ++ [genChecksum digits]).drop 1 =
        digits.drop 1 ++ [genChecksum digits] := by
      cases digits with
      | nil => simp at hlen
      | cons d0 rest => rfl
    have hsplit2 : everyOther (digits.drop 1 ++ [genChecksum digits]) =
        everyOther (digits.drop 1) :=
      everyOther_append_odd _ (by simp [List.length_drop, hlen])
    have hckdef : genChecksum digits =
        (10 - (((everyOther digits).sum +
          (everyOther (digits.drop 1)).sum * 3) % 10)) % 10 := rfl
    show ((everyOther ((genera_ean13 digits).toList.map charToDigit)).sum +
      3 * (everyOther (((genera_ean13 digits).toList.map charToDigit).drop
        1)).sum) % 10 = 0
    rw [hds, hsplit1, hdrop, hsplit2, List.sum_append, hckdef]
    simp only [List.sum_cons, List.sum_nil]
    omega

/-- Claim C10 witness: the theorem applied at an explicit draw of
twelve digits. -/
theorem genera_ean13_valid_witness :
    (genera_ean13 [9, 7, 8, 0, 3, 0, 6, 4, 0, 6, 1, 5]).length = 13 ∧
    (∀ c ∈ (genera_ean13 [9, 7, 8, 0, 3, 0, 6, 4, 0, 6, 1, 5]).toList,
      c.isDigit = true) ∧
    ean13WeightedSum (genera_ean13 [9, 7, 8, 0, 3, 0, 6, 4, 0, 6, 1, 5]) %
      10 = 0 :=
  genera_ean13_valid [9, 7, 8, 0, 3, 0, 6, 4, 0, 6, 1, 5] (by decide)
    (by decide)
